import Mathlib

set_option maxRecDepth 100000

/-!
Verification development for the TDK2 traceability core.

Shallow embedding of the Python sources:
  - `camera_images.py` : camera directory-name parsing, nearest-timestamp
    directory matching, position-image copying;
  - `plc_reader.py`    : DB90 block decoding (482-byte buffer), DTL
    timestamp decoding, CSV persistence;
  - `main.py`          : poll-loop change detection and the event branch.

Conventions: bytes are `ℕ` values (< 256 where it matters); Python strings
are `List Char` where character-level reasoning is needed, `String`
otherwise; fallible operations (Python exceptions) return `Option`;
IEEE-754 float values that are only carried around (never interpreted
arithmetically by claims) are kept as their raw 32-bit big-endian words.
-/

/-- Python `datetime.datetime` value (naive, proleptic Gregorian calendar,
microsecond resolution, years 1..9999). -/
structure PyDatetime where
  year : ℕ
  month : ℕ
  day : ℕ
  hour : ℕ
  minute : ℕ
  second : ℕ
  microsecond : ℕ
deriving DecidableEq

/-- Gregorian leap-year rule, as used by Python's `datetime` module. -/
def isLeapYear (y : ℕ) : Bool :=
  y % 4 == 0 && (y % 100 != 0 || y % 400 == 0)

/-- Number of days in month `m` of year `y` (Python `calendar` rule). -/
def daysInMonth (y m : ℕ) : ℕ :=
  if m = 2 then (if isLeapYear y then 29 else 28)
  else if m = 4 ∨ m = 6 ∨ m = 9 ∨ m = 11 then 30
  else 31

/-- The validity check performed by the Python `datetime(...)` constructor:
`MINYEAR = 1 ≤ year ≤ MAXYEAR = 9999`, a real calendar date, and in-range
time-of-day fields.  The constructor raises `ValueError` exactly when this
fails. -/
def pyDatetimeOk (y mo d h mi s us : ℕ) : Prop :=
  1 ≤ y ∧ y ≤ 9999 ∧ 1 ≤ mo ∧ mo ≤ 12 ∧ 1 ≤ d ∧ d ≤ daysInMonth y mo ∧
    h ≤ 23 ∧ mi ≤ 59 ∧ s ≤ 59 ∧ us ≤ 999999

instance (y mo d h mi s us : ℕ) : Decidable (pyDatetimeOk y mo d h mi s us) := by
  unfold pyDatetimeOk
  exact inferInstance

/-- Python `datetime(y, mo, d, h, mi, s, us)`: `some` value on success,
`none` when the constructor raises `ValueError` (the microsecond argument is
an `ℤ` because Python callers may pass a negative value, which is rejected). -/
def mk_datetime (y mo d h mi s : ℕ) (us : ℤ) : Option PyDatetime :=
  if 0 ≤ us ∧ pyDatetimeOk y mo d h mi s us.toNat then
    some ⟨y, mo, d, h, mi, s, us.toNat⟩
  else none

/-- Python `dt.replace(microsecond=us)`: the constructor check is re-run. -/
def replace_microsecond (dt : PyDatetime) (us : ℤ) : Option PyDatetime :=
  mk_datetime dt.year dt.month dt.day dt.hour dt.minute dt.second us

/-- Days in all years strictly before year `y` (proleptic Gregorian),
matching Python's `datetime.toordinal` arithmetic. -/
def daysBeforeYear (y : ℕ) : ℕ :=
  365 * (y - 1) + (y - 1) / 4 - (y - 1) / 100 + (y - 1) / 400

/-- Days in year `y` strictly before month `mo`. -/
def daysBeforeMonth (y mo : ℕ) : ℕ :=
  (List.range (mo - 1)).foldl (fun acc i => acc + daysInMonth y (i + 1)) 0

/-- Proleptic-Gregorian ordinal of a date (Python `date.toordinal`). -/
def toOrdinalDay (dt : PyDatetime) : ℕ :=
  daysBeforeYear dt.year + daysBeforeMonth dt.year dt.month + dt.day

/-- A `PyDatetime` as a single microsecond count, so that Python datetime
subtraction `(a - b).total_seconds()` is modelled exactly by the signed
microsecond difference. -/
def toMicro (dt : PyDatetime) : ℤ :=
  ((((toOrdinalDay dt : ℤ) * 24 + dt.hour) * 60 + dt.minute) * 60 + dt.second)
      * 1000000 + dt.microsecond

/-- The exact microsecond magnitude of the timedelta `a - b`: the absolute
value of the integer numerator that `timedelta.total_seconds()` divides by
`10^6`.  This exact value is NOT what the source compares — it is the input
to the binary64 rounding below. -/
def absDeltaMicro (a b : PyDatetime) : ℕ :=
  (toMicro a - toMicro b).natAbs

/-- `20 + floor(log2 (num / den))` for `2^20 * den ≤ num * 2^20`, i.e. the
largest `k` with `den * 2^k ≤ num`, by fueled doubling of the denominator
(the fuel `1100` makes this exact whenever `num / den < 2 ^ 1100` — far
beyond the microsecond deltas reachable from years 1..9999, which keep
the ratio below `2 ^ 59`). -/
def flog2Ratio : ℕ → ℕ → ℕ → ℕ
  | 0, _, _ => 0
  | fuel + 1, num, den => if 2 * den ≤ num then flog2Ratio fuel num (2 * den) + 1 else 0

/-- Round `a / b` (for `b > 0`) to the nearest natural, ties to even — the
IEEE-754 default rounding of the last retained binary digit. -/
def roundHalfEvenNat (a b : ℕ) : ℕ :=
  if 2 * (a % b) < b then a / b
  else if b < 2 * (a % b) then a / b + 1
  else if a / b % 2 = 0 then a / b else a / b + 1

/-- `2^72` times the exact value of the IEEE-754 binary64 double nearest to
`d / 10^6`, ties to even (the scale keeps the dyadic value a natural: for
`d ≥ 1` the exponent `e = floor(log2 (d / 10^6))` is at least `-20`, so the
double `m * 2^(e-52)` with `2^52 ≤ m ≤ 2^53` times `2^72` is integral).
This is exactly `abs((a - b).total_seconds())` as the source compares it:
CPython evaluates `((days*86400 + seconds)*10**6 + microseconds) / 10**6`,
i.e. the exact integer numerator `±d` correctly rounded to a double by true
division; round-to-nearest-even commutes with negation, so `abs` of the
rounded value equals rounding `d / 10^6`; and float comparison is exact
value comparison, so comparing these scaled naturals is the float
comparison.  All deltas in range are normal doubles (no overflow or
subnormals), so the 52-bit significand rounding is the full semantics.
Below, `k = e + 20`. -/
def floatSecondsScaled (d : ℕ) : ℕ :=
  if d = 0 then 0 else
    let k := flog2Ratio 1100 (d * 2 ^ 20) 1000000
    let m := if k ≤ 72 then roundHalfEvenNat (d * 2 ^ (72 - k)) 1000000
      else roundHalfEvenNat d (1000000 * 2 ^ (k - 72))
    m * 2 ^ k

/-- Numeric value of an ASCII digit character. -/
def dval (c : Char) : ℕ := c.toNat - 48

/-- The ASCII digit character for `n < 10`. -/
def digCh (n : ℕ) : Char := Char.ofNat (48 + n)

/-- CPython `_strptime` regex alternative for `%m`, two-character case:
`1[0-2] | 0[1-9]`. -/
def pm2 (a b : Char) : Bool :=
  (a == '1' && (b == '0' || b == '1' || b == '2')) ||
  (a == '0' && (b.isDigit && b != '0'))

/-- CPython `_strptime` regex alternative for `%m`/`%d`, one-character case:
`[1-9]`. -/
def pm1 (a : Char) : Bool := a.isDigit && a != '0'

/-- CPython `_strptime` regex alternative for `%d`, two-character case:
`3[01] | [12]\d | 0[1-9]`. -/
def pd2 (a b : Char) : Bool :=
  (a == '3' && (b == '0' || b == '1')) ||
  ((a == '1' || a == '2') && b.isDigit) ||
  (a == '0' && (b.isDigit && b != '0'))

/-- CPython `_strptime` regex alternative for `%H`, two-character case:
`2[0-3] | [01]\d`. -/
def pH2 (a b : Char) : Bool :=
  (a == '2' && (b == '0' || b == '1' || b == '2' || b == '3')) ||
  ((a == '0' || a == '1') && b.isDigit)

/-- CPython `_strptime` regex alternative for `%M`, two-character case:
`[0-5]\d`. -/
def pM2 (a b : Char) : Bool :=
  (a == '0' || a == '1' || a == '2' || a == '3' || a == '4' || a == '5') &&
    b.isDigit

/-- CPython `_strptime` regex alternative for `%S`, two-character case:
`6[01] | [0-5]\d` (leap seconds pass the regex; the later `datetime`
constructor rejects them). -/
def pS2 (a b : Char) : Bool :=
  (a == '6' && (b == '0' || b == '1')) || pM2 a b

/-- Match one literal character of the format string, then continue. -/
def lit (ch : Char) (cs : List Char) (k : List Char → Option α) : Option α :=
  match cs with
  | c :: rest => if c == ch then k rest else none
  | [] => none

/-- Match one numeric field of the format: try the two-character regex
alternatives first, and on failure of the whole remainder backtrack to the
one-character alternative — exactly the ordered-alternation backtracking of
the CPython `_strptime` regex. -/
def grp2or1 (p2 : Char → Char → Bool) (p1 : Char → Bool)
    (cs : List Char) (k : ℕ → List Char → Option α) : Option α :=
  (match cs with
    | c1 :: c2 :: rest => if p2 c1 c2 then k (10 * dval c1 + dval c2) rest else none
    | _ => none).orElse (fun _ =>
   match cs with
    | c1 :: rest => if p1 c1 then k (dval c1) rest else none
    | [] => none)

/-- Final stage of `strptime("%Y-%m-%d_%H-%M-%S")`: the seconds field, the
full-match check, and the `datetime` construction. -/
def stSecEnd (y mo d h mi : ℕ) (cs : List Char) : Option PyDatetime :=
  grp2or1 pS2 Char.isDigit cs fun s r =>
    if r = [] then mk_datetime y mo d h mi s 0 else none

/-- Literal `-` between minutes and seconds. -/
def stAfterMin (y mo d h mi : ℕ) (cs : List Char) : Option PyDatetime :=
  lit '-' cs (stSecEnd y mo d h mi)

/-- Minutes field. -/
def stMin (y mo d h : ℕ) (cs : List Char) : Option PyDatetime :=
  grp2or1 pM2 Char.isDigit cs fun mi r => stAfterMin y mo d h mi r

/-- Literal `-` between hours and minutes. -/
def stAfterHour (y mo d h : ℕ) (cs : List Char) : Option PyDatetime :=
  lit '-' cs (stMin y mo d h)

/-- Hours field. -/
def stHour (y mo d : ℕ) (cs : List Char) : Option PyDatetime :=
  grp2or1 pH2 Char.isDigit cs fun h r => stAfterHour y mo d h r

/-- Literal `_` between the date and the time of day. -/
def stAfterDay (y mo d : ℕ) (cs : List Char) : Option PyDatetime :=
  lit '_' cs (stHour y mo d)

/-- Day-of-month field. -/
def stDay (y mo : ℕ) (cs : List Char) : Option PyDatetime :=
  grp2or1 pd2 pm1 cs fun d r => stAfterDay y mo d r

/-- Literal `-` between month and day. -/
def stAfterMon (y mo : ℕ) (cs : List Char) : Option PyDatetime :=
  lit '-' cs (stDay y mo)

/-- Month field. -/
def stMon (y : ℕ) (cs : List Char) : Option PyDatetime :=
  grp2or1 pm2 pm1 cs fun mo r => stAfterMon y mo r

/-- Python `datetime.strptime(s, "%Y-%m-%d_%H-%M-%S")`: `some` on success,
`none` when it raises `ValueError` (regex mismatch, trailing input, or an
invalid calendar date).  `%Y` is exactly four digits in CPython. -/
def strptime_Y_md_HMS (cs : List Char) : Option PyDatetime :=
  match cs with
  | y1 :: y2 :: y3 :: y4 :: rest =>
    if y1.isDigit && y2.isDigit && y3.isDigit && y4.isDigit then
      lit '-' rest (stMon (1000 * dval y1 + 100 * dval y2 + 10 * dval y3 + dval y4))
    else none
  | _ => none

/-- Python `name.rsplit(c, 1)` restricted to the two-part outcome used by
`parse_camera_dir_name`: `some (before, after)` splitting at the LAST
occurrence of `c`, `none` when `c` does not occur (the single-part case,
which the source rejects via `len(parts) != 2`). -/
def rsplit1 (c : Char) : List Char → Option (List Char × List Char)
  | [] => none
  | a :: rest =>
    match rsplit1 c rest with
    | some (pre, suf) => some (a :: pre, suf)
    | none => if a == c then some ([], rest) else none

/-- Python `s.ljust(w, fill)`. -/
def ljust (cs : List Char) (w : ℕ) (fill : Char) : List Char :=
  cs ++ List.replicate (w - cs.length) fill

/-- Digit-and-underscore tail of a Python integer literal: after one digit,
each further digit may be preceded by a single underscore. -/
def pyNatGo (acc : ℕ) : List Char → Option ℕ
  | [] => some acc
  | c :: rest =>
    if c == '_' then
      match rest with
      | c2 :: rest2 =>
        if c2.isDigit then pyNatGo (10 * acc + dval c2) rest2 else none
      | [] => none
    else if c.isDigit then pyNatGo (10 * acc + dval c) rest else none

/-- Unsigned part of Python `int(s)`: one leading digit, then digits with
optional single underscores between them. -/
def pyNatDigits (cs : List Char) : Option ℕ :=
  match cs with
  | c :: rest => if c.isDigit then pyNatGo (dval c) rest else none
  | [] => none

/-- Python `int(s)` for ASCII strings: surrounding whitespace stripped,
optional sign, digits (with underscore separators); `none` models
`ValueError`. -/
def pyInt (cs0 : List Char) : Option ℤ :=
  let cs := ((cs0.dropWhile Char.isWhitespace).reverse.dropWhile
    Char.isWhitespace).reverse
  match cs with
  | [] => none
  | c :: rest =>
    if c == '+' then (pyNatDigits rest).map (fun n => (n : ℤ))
    else if c == '-' then (pyNatDigits rest).map (fun n => -(n : ℤ))
    else (pyNatDigits (c :: rest)).map (fun n => (n : ℤ))

/-- `camera_images.parse_camera_dir_name`: split off the sub-second part at
the last `-`, parse the base with `%Y-%m-%d_%H-%M-%S`, left-justify the
fractional part to 6 characters with `0`, truncate to 6, and install it as
the microsecond field; every `ValueError`/`IndexError` path yields `none`. -/
def parse_camera_dir_name (name : List Char) : Option PyDatetime :=
  match rsplit1 '-' name with
  | none => none
  | some (base_str, frac_str) =>
    match strptime_Y_md_HMS base_str with
    | none => none
    | some dt =>
      match pyInt ((ljust frac_str 6 '0').take 6) with
      | none => none
      | some us => replace_microsecond dt us

/-- One entry of `os.listdir(camera_dir)` together with the
`os.path.isdir` status of the joined path. -/
structure DirEntry where
  name : List Char
  isDir : Bool
deriving DecidableEq

/-- Loop body of `camera_images.find_closest_camera_dir`: skip entries that
are not directories or whose names do not parse; otherwise keep the entry
whose float64 `abs(total_seconds())` delta is strictly smaller than the
best seen so far (so float ties — including exact deltas that differ by
less than the double's ulp — keep the earlier entry). -/
def findBest (plc : PyDatetime) : List DirEntry → Option (List Char × ℕ) →
    Option (List Char × ℕ)
  | [], best => best
  | e :: rest, best =>
    if e.isDir = false then findBest plc rest best
    else
      match parse_camera_dir_name e.name with
      | none => findBest plc rest best
      | some dt =>
        let d := floatSecondsScaled (absDeltaMicro dt plc)
        match best with
        | none => findBest plc rest (some (e.name, d))
        | some (bn, bd) =>
          if d < bd then findBest plc rest (some (e.name, d))
          else findBest plc rest (some (bn, bd))

/-- `camera_images.find_closest_camera_dir`, reduced to its decision
content: the target instant, whether the root camera directory exists, and
the directory listing; the result is the chosen entry name (the source
returns the root-joined path of that entry, or `None`). -/
def find_closest_camera_dir (plc : PyDatetime) (rootExists : Bool)
    (entries : List DirEntry) : Option (List Char) :=
  if rootExists then (findBest plc entries none).map (fun p => p.1) else none

/-- The parseable directory entries of a listing, each paired with the
(`2^72`-scaled) float64 value its absolute delta to the target instant
compares as, in listing order. -/
def parsedDeltas (plc : PyDatetime) (entries : List DirEntry) :
    List (List Char × ℕ) :=
  (entries.filter (fun e => e.isDir)).filterMap fun e =>
    (parse_camera_dir_name e.name).map fun dt =>
      (e.name, floatSecondsScaled (absDeltaMicro dt plc))

/-- The accumulator update of `findBest` on one parsed entry. -/
def stepBest (best : Option (List Char × ℕ)) (p : List Char × ℕ) :
    Option (List Char × ℕ) :=
  match best with
  | none => some p
  | some (bn, bd) => if p.2 < bd then some p else some (bn, bd)

/-- One entry of `os.listdir(camera_folder)` with its `os.path.isfile`
status. -/
structure FileEntry where
  name : String
  isFile : Bool
deriving DecidableEq

/-- `p` is an initial segment of `s` (character-level `str.startswith`). -/
def startsChars : List Char → List Char → Bool
  | [], _ => true
  | _ :: _, [] => false
  | p :: ps, c :: cs => p == c && startsChars ps cs

/-- Python `s.startswith(pre)`. -/
def pyStartsWith (s pre : String) : Bool :=
  startsChars pre.data s.data

/-- Loop of `camera_images.copy_position_image`: scan the listing in order,
copy the FIRST regular file whose name starts with the prefix and return
`True`; return `False` when none matches.  Result: the list of copied file
names (in copy order) and the returned boolean. -/
def copyLoop (pre : String) : List FileEntry → List String × Bool
  | [] => ([], false)
  | f :: rest =>
    if pyStartsWith f.name pre && f.isFile then ([f.name], true)
    else copyLoop pre rest

/-- `camera_images.copy_position_image` for position `pos` over a source
listing: the prefix is `"POZ" ++ pos ++ "_"` (underscore included). -/
def copy_position_image (pos : ℕ) (files : List FileEntry) :
    List String × Bool :=
  copyLoop ("POZ" ++ toString pos ++ "_") files

/-- Python `data[i]` on a `bytearray`: `none` models `IndexError`. -/
def byteAt (data : List ℕ) (i : ℕ) : Option ℕ :=
  data[i]?

/-- `struct.unpack_from(">b", data, off)`: signed 8-bit, `none` models
`struct.error` on a too-short buffer. -/
def unpackI8 (data : List ℕ) (off : ℕ) : Option ℤ :=
  data[off]?.map fun b =>
    if b % 256 < 128 then ((b % 256 : ℕ) : ℤ) else ((b % 256 : ℕ) : ℤ) - 256

/-- `struct.unpack_from(">H", data, off)`: unsigned 16-bit big-endian. -/
def unpackU16 (data : List ℕ) (off : ℕ) : Option ℕ :=
  match data[off]?, data[off + 1]? with
  | some b0, some b1 => some (256 * (b0 % 256) + b1 % 256)
  | _, _ => none

/-- `struct.unpack_from(">i", data, off)`: signed 32-bit big-endian. -/
def unpackI32 (data : List ℕ) (off : ℕ) : Option ℤ :=
  match data[off]?, data[off + 1]?, data[off + 2]?, data[off + 3]? with
  | some b0, some b1, some b2, some b3 =>
    let u : ℕ := ((b0 % 256) * 16777216 + (b1 % 256) * 65536 +
      (b2 % 256) * 256 + b3 % 256)
    some (if u < 2147483648 then (u : ℤ) else (u : ℤ) - 4294967296)
  | _, _, _, _ => none

/-- One 32-bit big-endian word of the `">63f"` unpack, kept as its raw bit
pattern. -/
def word32At (data : List ℕ) (off : ℕ) : Option ℕ :=
  match data[off]?, data[off + 1]?, data[off + 2]?, data[off + 3]? with
  | some b0, some b1, some b2, some b3 =>
    some ((b0 % 256) * 16777216 + (b1 % 256) * 65536 + (b2 % 256) * 256 +
      b3 % 256)
  | _, _, _, _ => none

/-- One byte decoded by `bytes.decode("ascii", errors="replace")`: bytes
at or above 128 become U+FFFD. -/
def asciiReplaceChar (b : ℕ) : Char :=
  if b % 256 < 128 then Char.ofNat (b % 256) else Char.ofNat 65533

/-- Python `s.rstrip("\x00 ")` at character-list level. -/
def rstripNulSpace (cs : List Char) : List Char :=
  (cs.reverse.dropWhile (fun c => c == Char.ofNat 0 || c == ' ')).reverse

/-- `plc_reader.parse_ean`: bytes 4..130 (the slice `data[4:131]`), decoded
as ASCII with replacement, trailing NUL and space trimmed.  Slicing never
raises, so this is total. -/
def parse_ean (data : List ℕ) : String :=
  String.mk (rstripNulSpace (((data.drop 4).take 127).map asciiReplaceChar))

/-- `plc_reader.parse_ljs_data`: `struct.unpack_from(">63f", data, 132)`.
The 63 IEEE-754 words are kept as raw 32-bit big-endian words (no claim
interprets their float value); `none` models `struct.error`. -/
def parse_ljs_data (data : List ℕ) : Option (List ℕ) :=
  (List.range 63).mapM fun i => word32At data (132 + 4 * i)

/-- `plc_reader.parse_dtl`: slice 12 bytes at `offset`, unpack
`">HBBBBBBi"`, return `None` for the all-zero date, `None` for an invalid
date (`ValueError` caught), otherwise a datetime with
`microsecond = nanosec // 1000` (Python floor division).  The OUTER
`Option` models the uncaught `struct.error` on a short chunk. -/
def parse_dtl (data : List ℕ) (offset : ℕ) : Option (Option PyDatetime) :=
  let chunk := (data.drop offset).take 12
  match unpackU16 chunk 0, byteAt chunk 2, byteAt chunk 3, byteAt chunk 4,
      byteAt chunk 5, byteAt chunk 6, byteAt chunk 7, unpackI32 chunk 8 with
  | some year, some month, some day, some _weekday, some hour, some minute,
      some sec, some nanosec =>
    if year = 0 ∧ month % 256 = 0 ∧ day % 256 = 0 then some none
    else some (mk_datetime year (month % 256) (day % 256) (hour % 256)
      (minute % 256) (sec % 256) (nanosec.fdiv 1000))
  | _, _, _, _, _, _, _, _ => none

/-- One entry of the decoded `positions` list. -/
structure PosEntry where
  result : ℤ
  timestamp : Option PyDatetime
deriving DecidableEq

/-- The decoded DB90 record (`plc_reader.parse_db90` result dictionary). -/
structure DB90Record where
  id : ℤ
  presence : Bool
  result_total : ℤ
  ean : String
  ljs : List ℕ
  positions : List PosEntry
deriving DecidableEq

/-- One iteration of the positions loop of `parse_db90` (entry `i`, base
offset `384 + 14·i`). -/
def parse_position (data : List ℕ) (i : ℕ) : Option PosEntry := do
  let res ← unpackI8 data (384 + i * 14)
  let ts ← parse_dtl data (384 + i * 14 + 2)
  pure ⟨res, ts⟩

/-- `plc_reader.parse_db90`: decode the full block; `none` models an
uncaught exception (`struct.error`/`IndexError` on a too-short buffer). -/
def parse_db90 (data : List ℕ) : Option DB90Record := do
  let id_val ← unpackI8 data 0
  let presenceByte ← byteAt data 1
  let result_total ← unpackI8 data 2
  let ean := parse_ean data
  let ljs ← parse_ljs_data data
  let positions ← (List.range 7).mapM (parse_position data)
  pure ⟨id_val, presenceByte % 256 ≠ 0, result_total, ean, ljs, positions⟩

/-- Zero-padded two-digit decimal rendering (`%02d`, for values < 100). -/
def pad2 (n : ℕ) : List Char :=
  [digCh (n / 10), digCh (n % 10)]

/-- Zero-padded four-digit decimal rendering (`%04d`/`strftime %Y`, for
values < 10000). -/
def pad4 (n : ℕ) : List Char :=
  [digCh (n / 1000), digCh (n / 100 % 10), digCh (n / 10 % 10), digCh (n % 10)]

/-- Zero-padded six-digit decimal rendering (`strftime %f`). -/
def pad6 (n : ℕ) : List Char :=
  [digCh (n / 100000), digCh (n / 10000 % 10), digCh (n / 1000 % 10),
    digCh (n / 100 % 10), digCh (n / 10 % 10), digCh (n % 10)]

/-- `plc_reader.format_timestamp`: `""` for `None`, otherwise
`strftime("%Y-%m-%d %H:%M:%S.%f")`. -/
def format_timestamp : Option PyDatetime → String
  | none => ""
  | some dt =>
    String.mk (pad4 dt.year ++ '-' :: (pad2 dt.month ++ '-' :: (pad2 dt.day ++
      ' ' :: (pad2 dt.hour ++ ':' :: (pad2 dt.minute ++ ':' ::
        (pad2 dt.second ++ '.' :: pad6 dt.microsecond))))))

/-- `plc_reader.format_timestamp_for_match`: `""` for `None`, otherwise
`strftime("%Y-%m-%d_%H-%M-%S")` — the exact-name directory format (kept as
a character list so it can be fed back to the directory-name parser). -/
def format_timestamp_for_match : Option PyDatetime → List Char
  | none => []
  | some dt =>
    pad4 dt.year ++ '-' :: (pad2 dt.month ++ '-' :: (pad2 dt.day ++
      '_' :: (pad2 dt.hour ++ '-' :: (pad2 dt.minute ++ '-' ::
        pad2 dt.second))))

/-- The character class replaced by `_` in `save_to_csv` (characters
illegal in Windows directory names). -/
def isIllegalPathChar (c : Char) : Bool :=
  c == ':' || c == '\\' || c == '/' || c == '*' || c == '?' ||
    c == '"' || c == '<' || c == '>' || c == '|'

/-- The chain of `str.replace` calls in `save_to_csv`, each replacing one
illegal character with `_` (equivalent to a character-wise map because
every pattern is a single character and `_` is never itself replaced). -/
def sanitize_ean (s : String) : String :=
  String.mk (s.data.map fun c => if isIllegalPathChar c then '_' else c)

/-- `plc_reader.CSV_HEADER`. -/
def CSV_HEADER : List String :=
  ["timestamp", "id", "presence", "result_total", "ean"] ++
    ((List.range 63).map fun i => "ljs_" ++ toString (i + 1)) ++
    ((List.range 7).flatMap fun p =>
      ["pos" ++ toString (p + 1) ++ "_result",
       "pos" ++ toString (p + 1) ++ "_timestamp"])

/-- Rendering of one measurement cell, `f"{val:.6f}"`.  The float value is
carried as its raw 32-bit word (see the module docstring), so the cell is
modelled as an injective rendering of that word; no claim depends on the
decimal text of a measurement. -/
def format_ljs_cell (w : ℕ) : String :=
  toString w

/-- The row dict written by `save_to_csv`, flattened in `CSV_HEADER` column
order (`csv.DictWriter` writes values in field-name order).  `write_time`
stands for `datetime.now().isoformat()`. -/
def csvRow (write_time : String) (r : DB90Record) : List String :=
  [write_time, toString r.id, toString (if r.presence then (1 : ℕ) else 0),
      toString r.result_total, r.ean] ++
    r.ljs.map format_ljs_cell ++
    r.positions.flatMap fun p => [toString p.result, format_timestamp p.timestamp]

/-- `plc_reader.save_to_csv`, with the filesystem made explicit: `today`
stands for `datetime.now().strftime("%Y-%m-%d")`, `existing` is the prior
content of `folder/data.csv` (`none` when `os.path.isfile` is false, i.e.
the file does not exist).  The file is opened in mode `"a"` (append): the
header row is written first when the file did not exist, then exactly one
data row; prior content is never modified.  Returns the folder path and
the new file content. -/
def save_to_csv (r : DB90Record) (base_dir today write_time : String)
    (existing : Option (List (List String))) : String × List (List String) :=
  let ean := if r.ean = "" then "UNKNOWN" else r.ean
  let safe_ean := sanitize_ean ean
  let folder := base_dir ++ "/" ++ today ++ "/" ++ safe_ean
  let row := csvRow write_time r
  match existing with
  | none => (folder, [CSV_HEADER, row])
  | some lines => (folder, lines ++ [row])

/-- The new-piece condition of `main.poll_loop`:
`current_ean and current_ean != last_ean` (Python string truthiness plus
comparison against `None`-or-string). -/
def detector_fires (last : Option String) (ean : String) : Bool :=
  (ean != "") && (match last with
    | none => true
    | some s => ean != s)

/-- Where (if anywhere) an exception is raised inside the event branch of
one poll iteration: in `save_to_csv` itself, or later (during image
correlation / copying), or nowhere.  Any such exception is caught by the
iteration-level `except` clause. -/
inductive FailPoint
  | noFail
  | duringLedger
  | afterLedger
deriving DecidableEq

/-- One iteration of the event-handling part of `main.poll_loop`, given the
current `last_ean` state and the decoded identifier.  Returns the new
`last_ean` and whether a ledger row was appended during the iteration.
`last_ean = current_ean` is the LAST statement of the event branch, so any
exception before it leaves the detector state unchanged. -/
def poll_iteration (last : Option String) (ean : String) (fp : FailPoint) :
    Option String × Bool :=
  if detector_fires last ean then
    match fp with
    | .duringLedger => (last, false)
    | .afterLedger => (last, true)
    | .noFail => (some ean, true)
  else (last, false)

/-- Exception-free runs of the detector over a sequence of observed
identifiers, collecting the fire flag of each iteration. -/
def detector_run (last : Option String) : List String → List Bool
  | [] => []
  | ean :: rest =>
    detector_fires last ean ::
      detector_run (poll_iteration last ean .noFail).1 rest

/-- The externally visible actions of the event branch, in program order. -/
inductive PollAction
  | ledger
  | correlate (pos : ℕ)
  | move (pos : ℕ)
deriving DecidableEq

/-- Actions taken for one `pos` of the image loop in `main.poll_loop`:
skip when the position's timestamp is absent, otherwise correlate, and
move only when correlation returned a directory. -/
def posActions (rec : DB90Record) (camRoot : Bool) (entries : List DirEntry)
    (pos : ℕ) : List PollAction :=
  match (rec.positions[pos - 1]?).bind (fun p => p.timestamp) with
  | none => []
  | some ts =>
    PollAction.correlate pos ::
      (match find_closest_camera_dir ts camRoot entries with
       | none => []
       | some _ => [PollAction.move pos])

/-- The event branch of `main.poll_loop` for one detected unit: one ledger
append (`save_to_csv`) first, then the image loop `for pos in range(1, 4)`. -/
def event_branch (rec : DB90Record) (camRoot : Bool)
    (entries : List DirEntry) : List PollAction :=
  PollAction.ledger :: (List.range' 1 3).flatMap (posActions rec camRoot entries)

/-- ASCII digit class, by enumeration (used in theorem hypotheses). -/
def isDigitCh (c : Char) : Bool :=
  c == '0' || c == '1' || c == '2' || c == '3' || c == '4' ||
    c == '5' || c == '6' || c == '7' || c == '8' || c == '9'

/-- Decimal value of a digit string read positionally left to right. -/
def digitsVal (cs : List Char) : ℕ :=
  cs.foldl (fun a c => 10 * a + dval c) 0

/-- A sample decoded record with timestamps at positions 1 and 3 only
(used to witness the event-branch theorem). -/
def sampleRecord : DB90Record :=
  ⟨1, true, 0, "8590123456789", [],
    [⟨1, some ⟨2026, 2, 10, 11, 6, 39, 123000⟩⟩, ⟨0, none⟩,
     ⟨1, some ⟨2026, 2, 10, 11, 7, 2, 0⟩⟩, ⟨0, none⟩, ⟨0, none⟩,
     ⟨0, none⟩, ⟨0, none⟩]⟩

theorem copyLoop_eq (pre : String) (files : List FileEntry) :
    copyLoop pre files =
      (((files.filter fun f => pyStartsWith f.name pre && f.isFile).take 1).map
          (fun f => f.name),
        !(files.filter fun f => pyStartsWith f.name pre && f.isFile).isEmpty) := by
  induction files with
  | nil => rfl
  | cons f rest ih =>
    by_cases h : (pyStartsWith f.name pre && f.isFile) = true
    · simp [copyLoop, List.filter_cons, h]
    · simp only [Bool.not_eq_true] at h
      simp [copyLoop, List.filter_cons, h, ih]

/-- C1 (amended): the artifact mover searches for the prefix
`POZ{p}_` (underscore included, so `POZ2b.jpg` does NOT match), copies at
most the FIRST matching regular file into `<destination>/images/`, and
returns a boolean saying whether one was copied — not a count of all
matching files. -/
theorem copy_position_image_first_match_only (pos : ℕ) (files : List FileEntry) :
    copy_position_image pos files =
      (((files.filter fun f =>
            pyStartsWith f.name ("POZ" ++ toString pos ++ "_") && f.isFile).take 1).map
          (fun f => f.name),
        !(files.filter fun f =>
            pyStartsWith f.name ("POZ" ++ toString pos ++ "_") && f.isFile).isEmpty) :=
  copyLoop_eq _ _

/-- C1 (counterexample): with source files
`{POZ2_a.jpg, POZ2b.jpg, POZ3_x.jpg}` and position 2, the mover transfers
exactly one file (`POZ2_a.jpg`), not two: `POZ2b.jpg` is not transferred,
contradicting the claim that every file with prefix `POZ2` is moved and
that two files are moved on this input. -/
theorem copy_position_image_poz2_counterexample :
    copy_position_image 2
        [⟨"POZ2_a.jpg", true⟩, ⟨"POZ2b.jpg", true⟩, ⟨"POZ3_x.jpg", true⟩] =
      (["POZ2_a.jpg"], true) ∧
    (copy_position_image 2
        [⟨"POZ2_a.jpg", true⟩, ⟨"POZ2b.jpg", true⟩, ⟨"POZ3_x.jpg", true⟩]).1.length ≠ 2 ∧
    "POZ2b.jpg" ∉ (copy_position_image 2
        [⟨"POZ2_a.jpg", true⟩, ⟨"POZ2b.jpg", true⟩, ⟨"POZ3_x.jpg", true⟩]).1 :=
  ⟨by decide, by decide, by decide⟩

/-- C6: the change detector fires exactly when the identifier is non-empty
and either no identifier was recorded yet or the recorded one differs; on
fire the recorded identifier becomes the observed one, otherwise it is
unchanged; on the sequence `["", "X", "X", "Y", ""]` from the absent state
events fire only at the first `"X"` and at `"Y"`. -/
theorem detector_fires_spec :
    (∀ (last : Option String) (ean : String),
        detector_fires last ean = true ↔
          ean ≠ "" ∧ (last = none ∨ last ≠ some ean)) ∧
    (∀ (last : Option String) (ean : String),
        (poll_iteration last ean FailPoint.noFail).1 =
          if detector_fires last ean then some ean else last) ∧
    detector_run none ["", "X", "X", "Y", ""] =
      [false, true, false, true, false] := by
  refine ⟨?_, ?_, by decide⟩
  · intro last ean
    cases last with
    | none => simp [detector_fires]
    | some s => simp [detector_fires, bne_iff_ne, ne_comm]
  · intro last ean
    by_cases h : detector_fires last ean
    · simp [poll_iteration, h]
    · simp [poll_iteration, h]

/-- C7: each ledger call appends exactly one row to the per-folder CSV
content, prepending the header exactly when the file did not exist before
the call, and the prior content always remains an initial segment of the
new content. -/
theorem save_to_csv_append_only (r : DB90Record)
    (base_dir today write_time : String)
    (existing : Option (List (List String))) :
    (save_to_csv r base_dir today write_time existing).2 =
      (match existing with
        | none => [CSV_HEADER]
        | some lines => lines) ++ [csvRow write_time r] ∧
    ∃ tail, (save_to_csv r base_dir today write_time existing).2 =
      existing.getD [] ++ tail := by
  cases existing with
  | none => exact ⟨rfl, ⟨[CSV_HEADER, csvRow write_time r], rfl⟩⟩
  | some lines => exact ⟨rfl, ⟨[csvRow write_time r], rfl⟩⟩

/-- C9: an exception anywhere in the event branch (inside the CSV append,
or after it during image correlation/copying) leaves the detector state
unchanged, so the same non-empty identifier fires again on the next
exception-free iteration; a failure after the CSV append therefore
persists the same unit twice. -/
theorem poll_failure_keeps_state_and_refires
    (last : Option String) (ean : String) (fp : FailPoint)
    (hfp : fp ≠ FailPoint.noFail)
    (hfire : detector_fires last ean = true) :
    (poll_iteration last ean fp).1 = last ∧
    detector_fires (poll_iteration last ean fp).1 ean = true ∧
    (poll_iteration last ean FailPoint.afterLedger).2 = true ∧
    (poll_iteration (poll_iteration last ean FailPoint.afterLedger).1 ean
        FailPoint.noFail).2 = true := by
  have h1 : (poll_iteration last ean fp).1 = last := by
    cases fp with
    | noFail => exact absurd rfl hfp
    | duringLedger => simp [poll_iteration, hfire]
    | afterLedger => simp [poll_iteration, hfire]
  have h2 : (poll_iteration last ean FailPoint.afterLedger).1 = last := by
    simp [poll_iteration, hfire]
  refine ⟨h1, ?_, ?_, ?_⟩
  · rw [h1]; exact hfire
  · simp [poll_iteration, hfire]
  · rw [h2]; simp [poll_iteration, hfire]

/-- Witness for the C9 theorem at a concrete failing iteration. -/
theorem poll_failure_keeps_state_and_refires_witness :
    (poll_iteration none "X" FailPoint.duringLedger).1 = none ∧
    detector_fires (poll_iteration none "X" FailPoint.duringLedger).1 "X" = true ∧
    (poll_iteration none "X" FailPoint.afterLedger).2 = true ∧
    (poll_iteration (poll_iteration none "X" FailPoint.afterLedger).1 "X"
        FailPoint.noFail).2 = true :=
  poll_failure_keeps_state_and_refires none "X" FailPoint.duringLedger
    (by decide) (by decide)

theorem rsplit1_eq_none (c : Char) (l : List Char) :
    rsplit1 c l = none ↔ c ∉ l := by
  induction l with
  | nil => simp [rsplit1]
  | cons a rest ih =>
    cases h : rsplit1 c rest with
    | some p =>
      obtain ⟨p1, p2⟩ := p
      have hmem : c ∈ rest := by
        by_contra hc
        rw [ih.mpr hc] at h
        cases h
      simp [rsplit1, h, hmem]
    | none =>
      have hrest : c ∉ rest := ih.mp h
      by_cases hac : a = c
      · subst hac
        simp [rsplit1, h]
      · have : (a == c) = false := beq_eq_false_iff_ne.mpr hac
        simp [rsplit1, h, this, hrest, Ne.symm hac]

theorem rsplit1_last (c : Char) (xs ys : List Char) (h : c ∉ ys) :
    rsplit1 c (xs ++ c :: ys) = some (xs, ys) := by
  induction xs with
  | nil =>
    simp only [List.nil_append, rsplit1]
    rw [(rsplit1_eq_none c ys).mpr h]
    simp
  | cons a xs ih =>
    simp only [List.cons_append, rsplit1, List.append_eq]
    rw [ih]

theorem isDigitCh_char (c : Char) (h : isDigitCh c = true) :
    c = '0' ∨ c = '1' ∨ c = '2' ∨ c = '3' ∨ c = '4' ∨ c = '5' ∨ c = '6' ∨
      c = '7' ∨ c = '8' ∨ c = '9' := by
  simp only [isDigitCh, Bool.or_eq_true, beq_iff_eq] at h
  tauto

theorem isDigitCh_props (c : Char) (h : isDigitCh c = true) :
    c.isDigit = true ∧ c ≠ '-' ∧ c ≠ '_' ∧ c ≠ '+' ∧
      c.isWhitespace = false ∧ dval c ≤ 9 := by
  rcases isDigitCh_char c h with rfl | rfl | rfl | rfl | rfl | rfl | rfl | rfl | rfl | rfl <;>
    exact ⟨by decide, by decide, by decide, by decide, by decide, by decide⟩

theorem pyNatGo_digits (cs : List Char) : ∀ acc : ℕ,
    (∀ c ∈ cs, isDigitCh c = true) →
    pyNatGo acc cs = some (cs.foldl (fun a c => 10 * a + dval c) acc) := by
  induction cs with
  | nil => intro acc _; rfl
  | cons c rest ih =>
    intro acc h
    have hc := isDigitCh_props c (h c (by simp))
    have h1 : (c == '_') = false := beq_eq_false_iff_ne.mpr hc.2.2.1
    have hrec := ih (10 * acc + dval c)
      (fun x hx => h x (List.mem_cons_of_mem _ hx))
    rw [pyNatGo.eq_def]
    simp [h1, hc.1, hrec]

theorem pyNatDigits_digits (c : Char) (rest : List Char)
    (h : ∀ x ∈ c :: rest, isDigitCh x = true) :
    pyNatDigits (c :: rest) = some (digitsVal (c :: rest)) := by
  have hc := isDigitCh_props c (h c (by simp))
  simp only [pyNatDigits, hc.1, if_true]
  rw [pyNatGo_digits rest (dval c) (fun x hx => h x (by simp [hx]))]
  simp [digitsVal]

theorem pyInt_digits (cs : List Char) (hne : cs ≠ [])
    (h : ∀ c ∈ cs, isDigitCh c = true) :
    pyInt cs = some ((digitsVal cs : ℕ) : ℤ) := by
  obtain ⟨c, rest, rfl⟩ := List.exists_cons_of_ne_nil hne
  have hc := isDigitCh_props c (h c (by simp))
  have hd1 : (c :: rest).dropWhile Char.isWhitespace = c :: rest := by
    simp [List.dropWhile_cons, hc.2.2.2.2.1]
  have hd2 : (c :: rest).reverse.dropWhile Char.isWhitespace =
      (c :: rest).reverse := by
    cases hrev : (c :: rest).reverse with
    | nil => rfl
    | cons d tail =>
      have hdmem : d ∈ (c :: rest) := by
        rw [← List.mem_reverse, hrev]
        simp
      have hd := isDigitCh_props d (h d hdmem)
      simp [List.dropWhile_cons, hd.2.2.2.2.1]
  have hplus : (c == '+') = false := beq_eq_false_iff_ne.mpr hc.2.2.2.1
  have hminus : (c == '-') = false := beq_eq_false_iff_ne.mpr hc.2.1
  simp only [pyInt, hd1, hd2, List.reverse_reverse, hplus, hminus,
    Bool.false_eq_true, if_false]
  rw [pyNatDigits_digits c rest h]
  rfl

theorem foldl_digits_lt (cs : List Char) : ∀ acc : ℕ,
    (∀ c ∈ cs, isDigitCh c = true) →
    cs.foldl (fun a c => 10 * a + dval c) acc < (acc + 1) * 10 ^ cs.length := by
  induction cs with
  | nil => intro acc _; simp
  | cons c rest ih =>
    intro acc h
    have h9 : dval c ≤ 9 := (isDigitCh_props c (h c (by simp))).2.2.2.2.2
    rw [List.foldl_cons]
    have hstep := ih (10 * acc + dval c)
      (fun x hx => h x (List.mem_cons_of_mem _ hx))
    apply lt_of_lt_of_le hstep
    have e : (acc + 1) * 10 ^ (c :: rest).length =
        ((acc + 1) * 10) * 10 ^ rest.length := by
      simp [List.length_cons, pow_succ]
      ring
    rw [e]
    exact Nat.mul_le_mul_right _ (by omega)

theorem digitsVal_lt (cs : List Char) (h : ∀ c ∈ cs, isDigitCh c = true) :
    digitsVal cs < 10 ^ cs.length := by
  have := foldl_digits_lt cs 0 h
  simpa [digitsVal] using this

/-- C5: for any non-empty all-digit sub-second suffix, the directory-name
parser splits at the last hyphen, parses the fixed date-time prefix, and
interprets the suffix positionally: right-padded with `0` to 6 characters,
truncated to 6, read as the microsecond value. -/
theorem parse_camera_dir_name_padded_suffix (fr : List Char) (hne : fr ≠ [])
    (hdig : ∀ c ∈ fr, isDigitCh c = true) :
    parse_camera_dir_name ("2026-02-10_11-06-39-".toList ++ fr) =
      some ⟨2026, 2, 10, 11, 6, 39, digitsVal ((ljust fr 6 '0').take 6)⟩ := by
  have hsplit : rsplit1 '-' ("2026-02-10_11-06-39-".toList ++ fr) =
      some ("2026-02-10_11-06-39".toList, fr) := by
    have e : "2026-02-10_11-06-39-".toList ++ fr =
        "2026-02-10_11-06-39".toList ++ '-' :: fr := rfl
    rw [e]
    refine rsplit1_last _ _ _ (fun hmem => ?_)
    exact (isDigitCh_props _ (hdig _ hmem)).2.1 rfl
  have hfracdig : ∀ c ∈ (ljust fr 6 '0').take 6, isDigitCh c = true := by
    intro c hcmem
    rcases List.mem_append.mp (List.mem_of_mem_take hcmem) with h1 | h2
    · exact hdig c h1
    · have : c = '0' := List.eq_of_mem_replicate h2
      subst this
      decide
  have hfracne : (ljust fr 6 '0').take 6 ≠ [] := by
    obtain ⟨c, rest, rfl⟩ := List.exists_cons_of_ne_nil hne
    simp [ljust]
  have hlen : ((ljust fr 6 '0').take 6).length ≤ 6 := by
    simp [List.length_take]
  have hval : digitsVal ((ljust fr 6 '0').take 6) < 1000000 := by
    have h1 := digitsVal_lt _ hfracdig
    have h2 : (10 : ℕ) ^ ((ljust fr 6 '0').take 6).length ≤ 10 ^ 6 :=
      Nat.pow_le_pow_right (by norm_num) hlen
    calc digitsVal ((ljust fr 6 '0').take 6)
        < 10 ^ ((ljust fr 6 '0').take 6).length := h1
      _ ≤ 10 ^ 6 := h2
      _ = 1000000 := by norm_num
  have hst : strptime_Y_md_HMS ("2026-02-10_11-06-39".toList) =
      some ⟨2026, 2, 10, 11, 6, 39, 0⟩ := by decide
  simp only [parse_camera_dir_name, hsplit, hst,
    pyInt_digits _ hfracne hfracdig]
  simp only [replace_microsecond, mk_datetime]
  rw [if_pos]
  · simp
  · refine ⟨Int.natCast_nonneg _, ?_⟩
    simp only [Int.toNat_natCast]
    refine ⟨by norm_num, by norm_num, by norm_num, by norm_num, by norm_num,
      ?_, by norm_num, by norm_num, by norm_num, by omega⟩
    simp [daysInMonth, isLeapYear]

/-- Witness for the C5 theorem: `2026-02-10_11-06-39-1234` parses with
microsecond component `123400`, not `1234`. -/
theorem parse_camera_dir_name_padded_suffix_witness :
    parse_camera_dir_name ("2026-02-10_11-06-39-1234".toList) =
      some ⟨2026, 2, 10, 11, 6, 39, 123400⟩ := by
  have h := parse_camera_dir_name_padded_suffix ("1234".toList)
    (by decide) (by decide)
  have e : "2026-02-10_11-06-39-".toList ++ "1234".toList =
      "2026-02-10_11-06-39-1234".toList := rfl
  rw [e] at h
  rw [h]
  decide

theorem findBest_eq_foldl (plc : PyDatetime) (entries : List DirEntry) :
    ∀ acc, findBest plc entries acc =
      (parsedDeltas plc entries).foldl stepBest acc := by
  induction entries with
  | nil => intro acc; rfl
  | cons e rest ih =>
    intro acc
    by_cases hd : e.isDir
    · cases hp : parse_camera_dir_name e.name with
      | none =>
        have hpd : parsedDeltas plc (e :: rest) = parsedDeltas plc rest := by
          simp [parsedDeltas, List.filter_cons, hd, hp]
        have hfb : findBest plc (e :: rest) acc = findBest plc rest acc := by
          rw [findBest.eq_def]
          simp [hd, hp]
        rw [hfb, hpd, ih]
      | some dt =>
        have hpd : parsedDeltas plc (e :: rest) =
            (e.name, floatSecondsScaled (absDeltaMicro dt plc)) ::
              parsedDeltas plc rest := by
          simp [parsedDeltas, List.filter_cons, hd, hp]
        have hfb : findBest plc (e :: rest) acc =
            findBest plc rest
              (stepBest acc (e.name, floatSecondsScaled (absDeltaMicro dt plc))) := by
          rw [findBest.eq_def]
          cases acc with
          | none => simp [hd, hp, stepBest]
          | some b =>
            obtain ⟨bn, bd⟩ := b
            by_cases hlt : floatSecondsScaled (absDeltaMicro dt plc) < bd
            · simp [hd, hp, stepBest, hlt]
            · simp [hd, hp, stepBest, hlt]
        rw [hfb, hpd, List.foldl_cons, ih]
    · have hd' : e.isDir = false := by simpa using hd
      have hpd : parsedDeltas plc (e :: rest) = parsedDeltas plc rest := by
        simp [parsedDeltas, List.filter_cons, hd']
      have hfb : findBest plc (e :: rest) acc = findBest plc rest acc := by
        rw [findBest.eq_def]
        simp [hd']
      rw [hfb, hpd, ih]

theorem foldl_stepBest_isSome (l : List (List Char × ℕ)) :
    ∀ p : List Char × ℕ, (l.foldl stepBest (some p)).isSome = true := by
  induction l with
  | nil => intro p; rfl
  | cons q rest ih =>
    intro p
    rw [List.foldl_cons]
    obtain ⟨pn, pd⟩ := p
    by_cases hlt : q.2 < pd
    · simpa [stepBest, hlt] using ih q
    · simpa [stepBest, hlt] using ih (pn, pd)

theorem foldl_stepBest_none_iff (l : List (List Char × ℕ)) :
    l.foldl stepBest none = none ↔ l = [] := by
  cases l with
  | nil => simp
  | cons p rest =>
    rw [List.foldl_cons]
    have h1 : stepBest none p = some p := rfl
    rw [h1]
    have h2 := foldl_stepBest_isSome rest p
    constructor
    · intro h
      rw [h] at h2
      cases h2
    · intro h
      cases h

theorem foldl_stepBest_min (l : List (List Char × ℕ)) :
    ∀ (bn : List Char) (bd : ℕ) (r : List Char × ℕ),
      l.foldl stepBest (some (bn, bd)) = some r →
      r.2 ≤ bd ∧ (∀ q ∈ l, r.2 ≤ q.2) ∧
        (r = (bn, bd) ∨ ∃ i, i < l.length ∧ r = l.getD i ([], 0) ∧ r.2 < bd ∧
          ∀ j, j < i → r.2 < (l.getD j ([], 0)).2) := by
  induction l with
  | nil =>
    intro bn bd r hr
    simp only [List.foldl_nil, Option.some.injEq] at hr
    subst hr
    exact ⟨le_refl _, by simp, Or.inl rfl⟩
  | cons p rest ih =>
    intro bn bd r hr
    rw [List.foldl_cons] at hr
    by_cases hlt : p.2 < bd
    · have hstep : stepBest (some (bn, bd)) p = some (p.1, p.2) := by
        simp [stepBest, hlt]
      rw [hstep] at hr
      obtain ⟨ha, hb, hc⟩ := ih p.1 p.2 r hr
      refine ⟨le_of_lt (lt_of_le_of_lt ha hlt), ?_, ?_⟩
      · intro q hq
        rcases List.mem_cons.mp hq with rfl | hq'
        · exact ha
        · exact hb q hq'
      · rcases hc with rfl | ⟨i, hi, hri, hrb, hstrict⟩
        · refine Or.inr ⟨0, by simp, by simp, hlt, ?_⟩
          intro j hj
          omega
        · refine Or.inr ⟨i + 1, by simpa using hi, by simpa using hri,
            lt_trans hrb hlt, ?_⟩
          intro j hji
          cases j with
          | zero => simpa using hrb
          | succ j' =>
            have := hstrict j' (by omega)
            simpa using this
    · have hstep : stepBest (some (bn, bd)) p = some (bn, bd) := by
        simp [stepBest, hlt]
      rw [hstep] at hr
      obtain ⟨ha, hb, hc⟩ := ih bn bd r hr
      have hbdp : bd ≤ p.2 := le_of_not_lt hlt
      refine ⟨ha, ?_, ?_⟩
      · intro q hq
        rcases List.mem_cons.mp hq with rfl | hq'
        · exact le_trans ha hbdp
        · exact hb q hq'
      · rcases hc with rfl | ⟨i, hi, hri, hrb, hstrict⟩
        · exact Or.inl rfl
        · refine Or.inr ⟨i + 1, by simpa using hi, by simpa using hri, hrb, ?_⟩
          intro j hji
          cases j with
          | zero => simpa using lt_of_lt_of_le hrb hbdp
          | succ j' =>
            have := hstrict j' (by omega)
            simpa using this

/-- C2 (counterexample): from the target instant 0001-01-01 00:00:00, the
listing holds two parseable directories, first
`8711-07-16_06-09-04-000020` at exact delta `2^38` seconds + 20 µs, then
`8711-07-16_06-09-04-000000` at exact delta `2^38` seconds — strictly
(20 µs) smaller.  Both exact deltas round to the same double (`2^38`), so
the source's `delta < best_delta` float comparison never replaces the
first entry, and the policy returns the FIRST directory even though the
second minimizes the absolute time delta and the deltas are not equal —
refuting the claim that the parseable entry minimizing the absolute time
delta is returned, with ties broken by listing order. -/
theorem find_closest_float_collapse_counterexample :
    parse_camera_dir_name ("8711-07-16_06-09-04-000020".toList) =
        some ⟨8711, 7, 16, 6, 9, 4, 20⟩ ∧
    parse_camera_dir_name ("8711-07-16_06-09-04-000000".toList) =
        some ⟨8711, 7, 16, 6, 9, 4, 0⟩ ∧
    absDeltaMicro ⟨8711, 7, 16, 6, 9, 4, 0⟩ ⟨1, 1, 1, 0, 0, 0, 0⟩ <
      absDeltaMicro ⟨8711, 7, 16, 6, 9, 4, 20⟩ ⟨1, 1, 1, 0, 0, 0, 0⟩ ∧
    find_closest_camera_dir ⟨1, 1, 1, 0, 0, 0, 0⟩ true
      [⟨"8711-07-16_06-09-04-000020".toList, true⟩,
        ⟨"8711-07-16_06-09-04-000000".toList, true⟩] =
      some ("8711-07-16_06-09-04-000020".toList) :=
  ⟨by decide, by decide, by decide, by decide⟩

/-- C2 (amended): with an existing camera root, the nearest-timestamp
policy returns no match exactly when no directory entry parses; and
whenever it returns an entry, that entry is parseable, the float64 value of
its `abs(total_seconds())` delta (the exact delta correctly rounded to a
double) is minimal among all parseable directory entries, and every earlier
parseable entry has a strictly larger rounded delta — ties of the ROUNDED
delta, including exact deltas that differ by less than the double's ulp,
keep the first entry encountered; no maximum delta is enforced — some entry
is returned whenever at least one parses. -/
theorem find_closest_camera_dir_nearest (plc : PyDatetime)
    (entries : List DirEntry) :
    (find_closest_camera_dir plc true entries = none ↔
      parsedDeltas plc entries = []) ∧
    (∀ nm, find_closest_camera_dir plc true entries = some nm →
      ∃ i, i < (parsedDeltas plc entries).length ∧
        ((parsedDeltas plc entries).getD i ([], 0)).1 = nm ∧
        (∀ q ∈ parsedDeltas plc entries,
          ((parsedDeltas plc entries).getD i ([], 0)).2 ≤ q.2) ∧
        ∀ j, j < i →
          ((parsedDeltas plc entries).getD i ([], 0)).2 <
            ((parsedDeltas plc entries).getD j ([], 0)).2) := by
  have hfb : find_closest_camera_dir plc true entries =
      ((parsedDeltas plc entries).foldl stepBest none).map (fun p => p.1) := by
    simp [find_closest_camera_dir, findBest_eq_foldl]
  constructor
  · rw [hfb, Option.map_eq_none']
    exact foldl_stepBest_none_iff _
  · intro nm hnm
    rw [hfb] at hnm
    obtain ⟨r, hr, hrnm⟩ := Option.map_eq_some'.mp hnm
    cases hpd : parsedDeltas plc entries with
    | nil =>
      rw [hpd] at hr
      cases hr
    | cons p rest =>
      rw [hpd, List.foldl_cons] at hr
      have h1 : stepBest none p = some (p.1, p.2) := rfl
      rw [h1] at hr
      obtain ⟨ha, hb, hc⟩ := foldl_stepBest_min rest p.1 p.2 r hr
      rcases hc with hceq | ⟨i, hi, hri, hrb, hstrict⟩
      · refine ⟨0, by simp, ?_, ?_, ?_⟩
        · rw [hceq] at hrnm
          simpa using hrnm
        · intro q hq
          rcases List.mem_cons.mp hq with rfl | hq'
          · simp
          · have := hb q hq'
            rw [hceq] at this
            simpa using this
        · intro j hj
          omega
      · refine ⟨i + 1, by simpa using hi, ?_, ?_, ?_⟩
        · rw [List.getD_cons_succ, ← hri]
          exact hrnm
        · intro q hq
          rw [List.getD_cons_succ, ← hri]
          rcases List.mem_cons.mp hq with rfl | hq'
          · exact le_of_lt hrb
          · exact hb q hq'
        · intro j hji
          rw [List.getD_cons_succ, ← hri]
          cases j with
          | zero => simpa using hrb
          | succ j' =>
            rw [List.getD_cons_succ]
            exact hstrict j' (by omega)

/-- C4: for any 12-byte DTL chunk, the decoder returns (without raising) the
all-zero-date null, or the `datetime` built from the decoded fields with
`microsecond = nanosecond // 1000` (floor division); the `datetime`
constructor model returns null on any invalid calendar date/time instead of
raising; and the chunk encoding 2026-02-10 11:06:39 with
nanosecond = 123000000 decodes with microsecond = 123000. -/
theorem parse_dtl_contract :
    (∀ b0 b1 b2 b3 b4 b5 b6 b7 b8 b9 b10 b11 : ℕ,
      parse_dtl [b0, b1, b2, b3, b4, b5, b6, b7, b8, b9, b10, b11] 0 =
        if 256 * (b0 % 256) + b1 % 256 = 0 ∧ b2 % 256 = 0 ∧ b3 % 256 = 0 then
          some none
        else
          some (mk_datetime (256 * (b0 % 256) + b1 % 256) (b2 % 256) (b3 % 256)
            (b5 % 256) (b6 % 256) (b7 % 256)
            ((if (b8 % 256) * 16777216 + (b9 % 256) * 65536 + (b10 % 256) * 256 +
                  b11 % 256 < 2147483648 then
                (((b8 % 256) * 16777216 + (b9 % 256) * 65536 + (b10 % 256) * 256 +
                  b11 % 256 : ℕ) : ℤ)
              else
                (((b8 % 256) * 16777216 + (b9 % 256) * 65536 + (b10 % 256) * 256 +
                  b11 % 256 : ℕ) : ℤ) - 4294967296).fdiv 1000))) ∧
    (∀ (y mo d h mi s : ℕ) (us : ℤ),
      ¬ (0 ≤ us ∧ pyDatetimeOk y mo d h mi s us.toNat) →
        mk_datetime y mo d h mi s us = none) ∧
    parse_dtl [7, 234, 2, 10, 0, 11, 6, 39, 7, 84, 212, 192] 0 =
      some (some ⟨2026, 2, 10, 11, 6, 39, 123000⟩) := by
  refine ⟨?_, ?_, by decide⟩
  · intro b0 b1 b2 b3 b4 b5 b6 b7 b8 b9 b10 b11
    rfl
  · intro y mo d h mi s us hbad
    simp [mk_datetime, hbad]

/-- Witness for the never-raises clause of the C4 theorem: an invalid
calendar date (February 30) yields null from the constructor model. -/
theorem parse_dtl_contract_witness :
    mk_datetime 2026 2 30 11 6 39 0 = none :=
  parse_dtl_contract.2.1 2026 2 30 11 6 39 0 (by decide)

theorem mapM_option_length (l : List α) (f : α → Option β)
    (h : ∀ a ∈ l, (f a).isSome = true) :
    ∃ res, l.mapM f = some res ∧ res.length = l.length := by
  induction l with
  | nil => exact ⟨[], rfl, rfl⟩
  | cons a rest ih =>
    obtain ⟨b, hb⟩ := Option.isSome_iff_exists.mp (h a (by simp))
    obtain ⟨res, hres, hlen⟩ := ih (fun x hx => h x (List.mem_cons_of_mem _ hx))
    refine ⟨b :: res, ?_, by simp [hlen]⟩
    rw [List.mapM_cons, hb, hres]
    rfl

theorem parse_dtl_isSome (data : List ℕ) (off : ℕ)
    (h : off + 12 ≤ data.length) :
    (parse_dtl data off).isSome = true := by
  have hlen : ((data.drop off).take 12).length = 12 := by
    simp only [List.length_take, List.length_drop]
    omega
  have hg : ∀ j, j < 12 → ∃ b, ((data.drop off).take 12)[j]? = some b := by
    intro j hj
    rw [List.getElem?_eq_getElem (by rw [hlen]; exact hj)]
    exact ⟨_, rfl⟩
  obtain ⟨c0, e0⟩ := hg 0 (by norm_num)
  obtain ⟨c1, e1⟩ := hg 1 (by norm_num)
  obtain ⟨c2, e2⟩ := hg 2 (by norm_num)
  obtain ⟨c3, e3⟩ := hg 3 (by norm_num)
  obtain ⟨c4, e4⟩ := hg 4 (by norm_num)
  obtain ⟨c5, e5⟩ := hg 5 (by norm_num)
  obtain ⟨c6, e6⟩ := hg 6 (by norm_num)
  obtain ⟨c7, e7⟩ := hg 7 (by norm_num)
  obtain ⟨c8, e8⟩ := hg 8 (by norm_num)
  obtain ⟨c9, e9⟩ := hg 9 (by norm_num)
  obtain ⟨c10, e10⟩ := hg 10 (by norm_num)
  obtain ⟨c11, e11⟩ := hg 11 (by norm_num)
  simp only [parse_dtl, unpackU16, byteAt, unpackI32, e0, e1, e2, e3, e4, e5,
    e6, e7, e8, e9, e10, e11]
  split <;> rfl

/-- C3: decoding any 482-byte buffer succeeds (no exception escapes: the
only fallible sub-decoder, the DTL timestamp, degrades to null internally)
and yields exactly 63 measurement values and exactly 7 position entries. -/
theorem parse_db90_total (data : List ℕ) (h : data.length = 482) :
    ∃ r, parse_db90 data = some r ∧ r.ljs.length = 63 ∧
      r.positions.length = 7 := by
  have hget : ∀ i, i < 482 → ∃ b, data[i]? = some b := by
    intro i hi
    rw [List.getElem?_eq_getElem (by omega)]
    exact ⟨_, rfl⟩
  obtain ⟨b0, e0⟩ := hget 0 (by norm_num)
  obtain ⟨b1, e1⟩ := hget 1 (by norm_num)
  obtain ⟨b2, e2⟩ := hget 2 (by norm_num)
  obtain ⟨L, hL, hLlen⟩ : ∃ L, parse_ljs_data data = some L ∧
      L.length = 63 := by
    obtain ⟨L, hL, hlen⟩ := mapM_option_length (List.range 63)
      (fun i => word32At data (132 + 4 * i)) (by
        intro i hi
        have hi' : i < 63 := List.mem_range.mp hi
        obtain ⟨c0, f0⟩ := hget (132 + 4 * i) (by omega)
        obtain ⟨c1, f1⟩ := hget (132 + 4 * i + 1) (by omega)
        obtain ⟨c2, f2⟩ := hget (132 + 4 * i + 2) (by omega)
        obtain ⟨c3, f3⟩ := hget (132 + 4 * i + 3) (by omega)
        simp [word32At, f0, f1, f2, f3])
    exact ⟨L, hL, by simpa using hlen⟩
  obtain ⟨P, hP, hPlen⟩ : ∃ P,
      (List.range 7).mapM (parse_position data) = some P ∧ P.length = 7 := by
    obtain ⟨P, hP, hlen⟩ := mapM_option_length (List.range 7)
      (parse_position data) (by
        intro i hi
        have hi' : i < 7 := List.mem_range.mp hi
        obtain ⟨c0, f0⟩ := hget (384 + i * 14) (by omega)
        have hres : unpackI8 data (384 + i * 14) =
            some (if c0 % 256 < 128 then ((c0 % 256 : ℕ) : ℤ)
              else ((c0 % 256 : ℕ) : ℤ) - 256) := by
          simp [unpackI8, f0]
        have hts := parse_dtl_isSome data (384 + i * 14 + 2) (by omega)
        obtain ⟨ts, hts'⟩ := Option.isSome_iff_exists.mp hts
        simp [parse_position, hres, hts'])
    exact ⟨P, hP, by simpa using hlen⟩
  have hid : unpackI8 data 0 =
      some (if b0 % 256 < 128 then ((b0 % 256 : ℕ) : ℤ)
        else ((b0 % 256 : ℕ) : ℤ) - 256) := by
    simp [unpackI8, e0]
  have hpres : byteAt data 1 = some b1 := by
    simp [byteAt, e1]
  have hrt : unpackI8 data 2 =
      some (if b2 % 256 < 128 then ((b2 % 256 : ℕ) : ℤ)
        else ((b2 % 256 : ℕ) : ℤ) - 256) := by
    simp [unpackI8, e2]
  have hmain : ∃ r, parse_db90 data = some r ∧ r.ljs = L ∧ r.positions = P := by
    simp only [parse_db90, hid, hpres, hrt, hL, hP, Option.bind_eq_bind,
      Option.some_bind]
    exact ⟨_, rfl, rfl, rfl⟩
  obtain ⟨r, hr, hrl, hrp⟩ := hmain
  exact ⟨r, hr, by rw [hrl]; exact hLlen, by rw [hrp]; exact hPlen⟩

/-- Witness for the C3 theorem at the all-zero 482-byte buffer. -/
theorem parse_db90_total_witness :
    ∃ r, parse_db90 (List.replicate 482 0) = some r ∧ r.ljs.length = 63 ∧
      r.positions.length = 7 :=
  parse_db90_total _ (by simp)

theorem mem_posActions_correlate (rec : DB90Record) (camRoot : Bool)
    (entries : List DirEntry) (pos j : ℕ) :
    PollAction.correlate j ∈ posActions rec camRoot entries pos ↔
      j = pos ∧
        ((rec.positions[pos - 1]?).bind (fun p => p.timestamp)).isSome = true := by
  cases hts : (rec.positions[pos - 1]?).bind (fun p => p.timestamp) with
  | none => simp [posActions, hts]
  | some ts =>
    cases hf : find_closest_camera_dir ts camRoot entries with
    | none => simp [posActions, hts, hf]
    | some nm => simp [posActions, hts, hf]

theorem mem_posActions_move (rec : DB90Record) (camRoot : Bool)
    (entries : List DirEntry) (pos j : ℕ) :
    PollAction.move j ∈ posActions rec camRoot entries pos ↔
      j = pos ∧ ∃ ts,
        (rec.positions[pos - 1]?).bind (fun p => p.timestamp) = some ts ∧
        ∃ nm, find_closest_camera_dir ts camRoot entries = some nm := by
  cases hts : (rec.positions[pos - 1]?).bind (fun p => p.timestamp) with
  | none => simp [posActions, hts]
  | some ts =>
    cases hf : find_closest_camera_dir ts camRoot entries with
    | none => simp [posActions, hts, hf]
    | some nm => simp [posActions, hts, hf]

theorem ledger_not_mem_posActions (rec : DB90Record) (camRoot : Bool)
    (entries : List DirEntry) (pos : ℕ) :
    PollAction.ledger ∉ posActions rec camRoot entries pos := by
  cases hts : (rec.positions[pos - 1]?).bind (fun p => p.timestamp) with
  | none => simp [posActions, hts]
  | some ts =>
    cases hf : find_closest_camera_dir ts camRoot entries with
    | none => simp [posActions, hts, hf]
    | some nm => simp [posActions, hts, hf]

/-- C8: in the event branch of the scheduler, the ledger append runs
exactly once per detected unit regardless of image outcomes; correlation
runs exactly for the positions 1..3 whose timestamp is present; and a move
happens exactly for those correlated positions where the correlator
returned a directory. -/
theorem event_branch_once_per_unit (rec : DB90Record) (camRoot : Bool)
    (entries : List DirEntry) (_hlen : rec.positions.length = 7) :
    ((event_branch rec camRoot entries).count PollAction.ledger = 1) ∧
    (∀ pos, PollAction.correlate pos ∈ event_branch rec camRoot entries ↔
      (pos = 1 ∨ pos = 2 ∨ pos = 3) ∧
        ((rec.positions[pos - 1]?).bind (fun p => p.timestamp)).isSome = true) ∧
    (∀ pos, PollAction.move pos ∈ event_branch rec camRoot entries ↔
      PollAction.correlate pos ∈ event_branch rec camRoot entries ∧
        ∃ ts, (rec.positions[pos - 1]?).bind (fun p => p.timestamp) = some ts ∧
          ∃ nm, find_closest_camera_dir ts camRoot entries = some nm) := by
  have hflat : event_branch rec camRoot entries =
      PollAction.ledger :: (posActions rec camRoot entries 1 ++
        (posActions rec camRoot entries 2 ++ posActions rec camRoot entries 3)) := by
    simp [event_branch, List.range']
  have hcor : ∀ pos, PollAction.correlate pos ∈ event_branch rec camRoot entries ↔
      (pos = 1 ∨ pos = 2 ∨ pos = 3) ∧
        ((rec.positions[pos - 1]?).bind (fun p => p.timestamp)).isSome = true := by
    intro pos
    rw [hflat]
    simp only [List.mem_cons, List.mem_append, mem_posActions_correlate]
    constructor
    · rintro (hced | ⟨rfl, hc⟩ | ⟨rfl, hc⟩ | ⟨rfl, hc⟩)
      · cases hced
      · exact ⟨Or.inl rfl, hc⟩
      · exact ⟨Or.inr (Or.inl rfl), hc⟩
      · exact ⟨Or.inr (Or.inr rfl), hc⟩
    · rintro ⟨rfl | rfl | rfl, hc⟩
      · exact Or.inr (Or.inl ⟨rfl, hc⟩)
      · exact Or.inr (Or.inr (Or.inl ⟨rfl, hc⟩))
      · exact Or.inr (Or.inr (Or.inr ⟨rfl, hc⟩))
  refine ⟨?_, hcor, ?_⟩
  · rw [hflat]
    rw [List.count_cons_self]
    rw [List.count_append, List.count_append]
    rw [List.count_eq_zero.mpr (ledger_not_mem_posActions rec camRoot entries 1),
      List.count_eq_zero.mpr (ledger_not_mem_posActions rec camRoot entries 2),
      List.count_eq_zero.mpr (ledger_not_mem_posActions rec camRoot entries 3)]
  · intro pos
    constructor
    · intro hmv
      rw [hflat] at hmv
      simp only [List.mem_cons, List.mem_append, mem_posActions_move] at hmv
      rcases hmv with hced | ⟨rfl, ts, hts, nm, hnm⟩ | ⟨rfl, ts, hts, nm, hnm⟩ |
          ⟨rfl, ts, hts, nm, hnm⟩
      · cases hced
      · exact ⟨(hcor 1).mpr ⟨Or.inl rfl, by simpa using congrArg Option.isSome hts⟩, ts, hts, nm, hnm⟩
      · exact ⟨(hcor 2).mpr ⟨Or.inr (Or.inl rfl), by simpa using congrArg Option.isSome hts⟩, ts, hts, nm, hnm⟩
      · exact ⟨(hcor 3).mpr ⟨Or.inr (Or.inr rfl), by simpa using congrArg Option.isSome hts⟩, ts, hts, nm, hnm⟩
    · rintro ⟨hin, ts, hts, nm, hnm⟩
      obtain ⟨hpos, _⟩ := (hcor pos).mp hin
      rw [hflat]
      simp only [List.mem_cons, List.mem_append, mem_posActions_move]
      rcases hpos with rfl | rfl | rfl
      · exact Or.inr (Or.inl ⟨rfl, ts, hts, nm, hnm⟩)
      · exact Or.inr (Or.inr (Or.inl ⟨rfl, ts, hts, nm, hnm⟩))
      · exact Or.inr (Or.inr (Or.inr ⟨rfl, ts, hts, nm, hnm⟩))

/-- Witness for the C8 theorem at a concrete record with timestamps at
positions 1 and 3 and no camera root. -/
theorem event_branch_once_per_unit_witness :
    (event_branch sampleRecord false []).count PollAction.ledger = 1 :=
  (event_branch_once_per_unit sampleRecord false [] (by decide)).1

theorem digCh_facts (n : ℕ) (h : n < 10) :
    (digCh n).isDigit = true ∧ digCh n ≠ '-' ∧ digCh n ≠ '_' := by
  interval_cases n <;> exact ⟨by decide, by decide, by decide⟩

theorem lit_mismatch (ch c : Char) (cs : List Char) (k : List Char → Option α)
    (h : (c == ch) = false) : lit ch (c :: cs) k = none := by
  simp [lit, h]

theorem lit_nil (ch : Char) (k : List Char → Option α) : lit ch [] k = none := rfl

theorem lit_match (ch : Char) (cs : List Char) (k : List Char → Option α) :
    lit ch (ch :: cs) k = k cs := by
  simp [lit]

theorem stMin_two_fails (y mo d h : ℕ) (e1 e2 : Char)
    (he2 : (e2 == '-') = false) : stMin y mo d h [e1, e2] = none := by
  have h2 : stAfterMin y mo d h (10 * dval e1 + dval e2) [] = none := rfl
  have h1 : stAfterMin y mo d h (dval e1) [e2] = none :=
    lit_mismatch '-' e2 [] _ he2
  simp [stMin, grp2or1, Option.orElse, h2, h1, ite_self]

theorem stHour_fails (y mo d : ℕ) (h1c h2c e1 e2 : Char)
    (hh2 : (h2c == '-') = false) (he2 : (e2 == '-') = false) :
    stHour y mo d [h1c, h2c, '-', e1, e2] = none := by
  have hb2 : stAfterHour y mo d (10 * dval h1c + dval h2c) ('-' :: [e1, e2]) =
      none := by
    rw [stAfterHour, lit_match]
    exact stMin_two_fails _ _ _ _ e1 e2 he2
  have hb1 : stAfterHour y mo d (dval h1c) (h2c :: '-' :: [e1, e2]) = none :=
    lit_mismatch '-' h2c _ _ hh2
  simp [stHour, grp2or1, Option.orElse, hb2, hb1, ite_self]

theorem stDay_fails (y mo : ℕ) (dd1 dd2 h1c h2c e1 e2 : Char)
    (hd2 : (dd2 == '_') = false) (hh2 : (h2c == '-') = false)
    (he2 : (e2 == '-') = false) :
    stDay y mo [dd1, dd2, '_', h1c, h2c, '-', e1, e2] = none := by
  have hb2 : stAfterDay y mo (10 * dval dd1 + dval dd2)
      ('_' :: [h1c, h2c, '-', e1, e2]) = none := by
    rw [stAfterDay, lit_match]
    exact stHour_fails _ _ _ h1c h2c e1 e2 hh2 he2
  have hb1 : stAfterDay y mo (dval dd1)
      (dd2 :: '_' :: [h1c, h2c, '-', e1, e2]) = none :=
    lit_mismatch '_' dd2 _ _ hd2
  simp [stDay, grp2or1, Option.orElse, hb2, hb1, ite_self]

theorem stMon_fails (y : ℕ) (m1 m2 dd1 dd2 h1c h2c e1 e2 : Char)
    (hm2 : (m2 == '-') = false) (hd2 : (dd2 == '_') = false)
    (hh2 : (h2c == '-') = false) (he2 : (e2 == '-') = false) :
    stMon y [m1, m2, '-', dd1, dd2, '_', h1c, h2c, '-', e1, e2] = none := by
  have hb2 : stAfterMon y (10 * dval m1 + dval m2)
      ('-' :: [dd1, dd2, '_', h1c, h2c, '-', e1, e2]) = none := by
    rw [stAfterMon, lit_match]
    exact stDay_fails _ _ dd1 dd2 h1c h2c e1 e2 hd2 hh2 he2
  have hb1 : stAfterMon y (dval m1)
      (m2 :: '-' :: [dd1, dd2, '_', h1c, h2c, '-', e1, e2]) = none :=
    lit_mismatch '-' m2 _ _ hm2
  simp [stMon, grp2or1, Option.orElse, hb2, hb1, ite_self]

theorem strptime_exact_format_fails
    (y1 y2 y3 y4 m1 m2 dd1 dd2 h1c h2c e1 e2 : Char)
    (hm2 : (m2 == '-') = false) (hd2 : (dd2 == '_') = false)
    (hh2 : (h2c == '-') = false) (he2 : (e2 == '-') = false) :
    strptime_Y_md_HMS
      [y1, y2, y3, y4, '-', m1, m2, '-', dd1, dd2, '_', h1c, h2c, '-', e1, e2] =
      none := by
  have hmon : ∀ yv : ℕ,
      stMon yv [m1, m2, '-', dd1, dd2, '_', h1c, h2c, '-', e1, e2] = none :=
    fun yv => stMon_fails yv m1 m2 dd1 dd2 h1c h2c e1 e2 hm2 hd2 hh2 he2
  simp [strptime_Y_md_HMS, lit_match, hmon, ite_self]

theorem daysInMonth_le_31 (y m : ℕ) : daysInMonth y m ≤ 31 := by
  unfold daysInMonth
  split
  · split <;> omega
  · split <;> omega

/-- C10: for every valid instant, the canonical exact-name directory string
`YYYY-MM-DD_HH-MM-SS` produced by the match-formatting function never
parses under the nearest-timestamp directory-name parser (the split at the
last hyphen consumes the seconds field, and the remaining prefix fails the
fixed pattern), so such an entry is always skipped by the
nearest-timestamp scanning loop. -/
theorem format_for_match_never_parses (dt : PyDatetime)
    (hok : pyDatetimeOk dt.year dt.month dt.day dt.hour dt.minute dt.second
      dt.microsecond) :
    parse_camera_dir_name (format_timestamp_for_match (some dt)) = none ∧
    ∀ (plc : PyDatetime) (b : Bool) (rest : List DirEntry)
      (best : Option (List Char × ℕ)),
      findBest plc (⟨format_timestamp_for_match (some dt), b⟩ :: rest) best =
        findBest plc rest best := by
  obtain ⟨h1y, h2y, h1mo, h2mo, h1d, h2d, hh, hmi, hs, _⟩ := hok
  have hdlim : dt.day ≤ 31 := le_trans h2d (daysInMonth_le_31 _ _)
  have hy1 : dt.year / 1000 < 10 := Nat.div_lt_of_lt_mul (by omega)
  have hmo1 : dt.month / 10 < 10 := Nat.div_lt_of_lt_mul (by omega)
  have hd1 : dt.day / 10 < 10 := Nat.div_lt_of_lt_mul (by omega)
  have hh1 : dt.hour / 10 < 10 := Nat.div_lt_of_lt_mul (by omega)
  have hmi1 : dt.minute / 10 < 10 := Nat.div_lt_of_lt_mul (by omega)
  have hs1 : dt.second / 10 < 10 := Nat.div_lt_of_lt_mul (by omega)
  have hmod : ∀ n : ℕ, n % 10 < 10 := fun n => Nat.mod_lt _ (by norm_num)
  have hfmt : format_timestamp_for_match (some dt) =
      [digCh (dt.year / 1000), digCh (dt.year / 100 % 10),
        digCh (dt.year / 10 % 10), digCh (dt.year % 10), '-',
        digCh (dt.month / 10), digCh (dt.month % 10), '-',
        digCh (dt.day / 10), digCh (dt.day % 10), '_',
        digCh (dt.hour / 10), digCh (dt.hour % 10), '-',
        digCh (dt.minute / 10), digCh (dt.minute % 10), '-',
        digCh (dt.second / 10), digCh (dt.second % 10)] := rfl
  have hnotmem : '-' ∉ [digCh (dt.second / 10), digCh (dt.second % 10)] := by
    intro hmem
    rcases List.mem_cons.mp hmem with h | h
    · exact (digCh_facts _ hs1).2.1 h.symm
    · rcases List.mem_cons.mp h with h' | h'
      · exact (digCh_facts _ (hmod dt.second)).2.1 h'.symm
      · cases h'
  have hsplit : rsplit1 '-' (format_timestamp_for_match (some dt)) =
      some ([digCh (dt.year / 1000), digCh (dt.year / 100 % 10),
        digCh (dt.year / 10 % 10), digCh (dt.year % 10), '-',
        digCh (dt.month / 10), digCh (dt.month % 10), '-',
        digCh (dt.day / 10), digCh (dt.day % 10), '_',
        digCh (dt.hour / 10), digCh (dt.hour % 10), '-',
        digCh (dt.minute / 10), digCh (dt.minute % 10)],
        [digCh (dt.second / 10), digCh (dt.second % 10)]) := by
    rw [hfmt]
    exact rsplit1_last '-'
      [digCh (dt.year / 1000), digCh (dt.year / 100 % 10),
        digCh (dt.year / 10 % 10), digCh (dt.year % 10), '-',
        digCh (dt.month / 10), digCh (dt.month % 10), '-',
        digCh (dt.day / 10), digCh (dt.day % 10), '_',
        digCh (dt.hour / 10), digCh (dt.hour % 10), '-',
        digCh (dt.minute / 10), digCh (dt.minute % 10)]
      [digCh (dt.second / 10), digCh (dt.second % 10)] hnotmem
  have hst : strptime_Y_md_HMS
      [digCh (dt.year / 1000), digCh (dt.year / 100 % 10),
        digCh (dt.year / 10 % 10), digCh (dt.year % 10), '-',
        digCh (dt.month / 10), digCh (dt.month % 10), '-',
        digCh (dt.day / 10), digCh (dt.day % 10), '_',
        digCh (dt.hour / 10), digCh (dt.hour % 10), '-',
        digCh (dt.minute / 10), digCh (dt.minute % 10)] = none := by
    exact strptime_exact_format_fails _ _ _ _ _ _ _ _ _ _ _ _
      (beq_eq_false_iff_ne.mpr (digCh_facts _ (hmod dt.month)).2.1)
      (beq_eq_false_iff_ne.mpr (digCh_facts _ (hmod dt.day)).2.2)
      (beq_eq_false_iff_ne.mpr (digCh_facts _ (hmod dt.hour)).2.1)
      (beq_eq_false_iff_ne.mpr (digCh_facts _ (hmod dt.minute)).2.1)
  have hparse : parse_camera_dir_name (format_timestamp_for_match (some dt)) =
      none := by
    simp only [parse_camera_dir_name, hsplit, hst]
  refine ⟨hparse, ?_⟩
  intro plc b rest best
  rw [findBest.eq_def]
  cases b with
  | false => simp
  | true => simp [hparse]

/-- Witness for the C10 theorem at the instant 2026-02-10 11:06:39. -/
theorem format_for_match_never_parses_witness :
    parse_camera_dir_name
      (format_timestamp_for_match (some ⟨2026, 2, 10, 11, 6, 39, 0⟩)) = none :=
  (format_for_match_never_parses ⟨2026, 2, 10, 11, 6, 39, 0⟩ (by decide)).1
